import Mathlib

/-
Shallow embedding of the `ether` library (src/src/index.ts): a single
`Either` class holding a payload `value : A` and a string discriminant
`type : 'left' | 'right'`, with chainable combinators.

The embedding has two layers:
* a pure value model (`Ether.EitherV`) for the functional combinators
  (`exists`, `map`, `flatMap`, `then`, `ap`, `liftN`, `flatten`,
  `filterOrElse`, `contains`, `orElse`);
* a heap model (`Ether.Heap`) where instances have addresses, for the
  claims about receiver identity and the in-place mutation done by
  `swap`.

JavaScript is dynamically typed: a payload may be a number, a string, a
function, or another Either instance (the source tests this at runtime
with `typeof ... === 'function'` and `instanceof Either`).  The value
model therefore uses a dynamic value type `Val F`, parametric in an
abstract type `F` of function representations together with an
application map `app : F → Val F → Val F` supplied to the combinators
that invoke payload functions.
-/

namespace Ether

/-- The discriminant of the source class: the field `type : 'left' | 'right'`. -/
inductive Tag where
  | left
  | right
deriving DecidableEq, Repr

/-- Dynamic payload values: integers, strings, functions (abstractly, a
code `f : F` applied via an externally supplied `app`), or a nested
Either instance (`veither t v` plays the role of an object that passes
the source's `instanceof Either` test and has tag `t` and payload `v`). -/
inductive Val (F : Type) where
  | vint : Int → Val F
  | vstr : String → Val F
  | vfn : F → Val F
  | veither : Tag → Val F → Val F
deriving DecidableEq, Repr

/-- The Either class of the source: field `value` (payload) and field
`type` (tag), exactly the two private fields of `class Either<A>`. -/
structure EitherV (F : Type) where
  value : Val F
  type : Tag
deriving DecidableEq, Repr

variable {F : Type}

/-- The source factory `Left = value => new Either(value, 'left')`. -/
def Left (v : Val F) : EitherV F := ⟨v, Tag.left⟩

/-- The source factory `Right = value => new Either(value, 'right')`. -/
def Right (v : Val F) : EitherV F := ⟨v, Tag.right⟩

/-- Source `isLeft(): boolean { return this.type === 'left'; }`. -/
def EitherV.isLeft (e : EitherV F) : Bool := e.type == Tag.left

/-- Source `isRight(): boolean { return this.type === 'right'; }`. -/
def EitherV.isRight (e : EitherV F) : Bool := e.type == Tag.right

/-- Source `get(): A { return this.value; }`. -/
def EitherV.get (e : EitherV F) : Val F := e.value

/-- Source `exists(predicateFn) { return this.isLeft() || predicateFn(this.get()); }`
(line 72 of src/src/index.ts, translated verbatim). -/
def EitherV.exists (p : Val F → Bool) (e : EitherV F) : Bool :=
  e.isLeft || p e.get

/-- Source `getOrElse(fallback) { return this.isLeft() ? fallback : this.get(); }`. -/
def EitherV.getOrElse (fallback : Val F) (e : EitherV F) : Val F :=
  if e.isLeft then fallback else e.get

/-- Source `orElse(otherEither) { return this.isLeft() ? otherEither : this; }`. -/
def EitherV.orElse (e other : EitherV F) : EitherV F :=
  if e.isLeft then other else e

/-- Source `map(fn) { return this.isLeft() ? this : Right(fn(this.get())); }`. -/
def EitherV.map (fn : Val F → Val F) (e : EitherV F) : EitherV F :=
  if e.isLeft then e else Right (fn e.get)

/-- The runtime test `typeof v === 'function'` of the source. -/
def isFunction : Val F → Bool
  | Val.vfn _ => true
  | _ => false

/-- The runtime test `v instanceof Either` of the source. -/
def isEither : Val F → Bool
  | Val.veither _ _ => true
  | _ => false

/-- Source `ap(either)`: `if (this.isLeft()) return this;` then
`if (typeof this.get() !== 'function') return this;` (the wildcard
branch below), else `return either.map(underlyingFunc);` where the
underlying function is applied through `app`. -/
def EitherV.ap (app : F → Val F → Val F) (e other : EitherV F) : EitherV F :=
  if e.isLeft then e
  else
    match e.get with
    | Val.vfn f => other.map (app f)
    | _ => e

/-- Source `flatMap(fn) { return this.isLeft() ? this : fn(this.get()); }`. -/
def EitherV.flatMap (fn : Val F → EitherV F) (e : EitherV F) : EitherV F :=
  if e.isLeft then e else fn e.get

/-- Source `then(fn)`: Left is returned as is; otherwise `fn` is invoked
and `result instanceof Either` decides whether the result is returned
directly (the `veither` branch) or wrapped via `Right(result)`.
Named `thenE` because `then` is a reserved word in Lean. -/
def EitherV.thenE (fn : Val F → Val F) (e : EitherV F) : EitherV F :=
  if e.isLeft then e
  else
    match fn e.get with
    | Val.veither t v => ⟨v, t⟩
    | r => Right r

/-- Source `flatten()`: Left returned as is; a Right whose payload is an
Either (the `instanceof` test) returns that payload; otherwise the
instance itself. -/
def EitherV.flatten (e : EitherV F) : EitherV F :=
  if e.isLeft then e
  else
    match e.get with
    | Val.veither t v => ⟨v, t⟩
    | _ => e

/-- Source `filterOrElse(filterFn, otherEither)`: Left returned as is;
a Right passing the filter returned as is; otherwise `otherEither`. -/
def EitherV.filterOrElse (p : Val F → Bool) (other : EitherV F) (e : EitherV F) : EitherV F :=
  if e.isLeft then e
  else if p e.get then e else other

/-- Source `contains(value, equalityFn) { return equalityFn(this.get(), value); }`
with the equality function made an explicit argument (the source gives
it the default `(a, b) => a === b`, expanded below in `containsDefault`). -/
def EitherV.contains (eq : Val F → Val F → Bool) (v : Val F) (e : EitherV F) : Bool :=
  eq e.get v

/-- The source's default equality `(valOne, valTwo) => valOne === valTwo`,
modelled on primitive payloads where JavaScript strict equality is value
equality.  Reference equality on objects and functions is not
representable in a value model and is not used by any theorem below. -/
def strictEqPrim : Val F → Val F → Bool
  | Val.vint a, Val.vint b => a == b
  | Val.vstr a, Val.vstr b => a == b
  | _, _ => false

/-- Source `contains` with its default equality argument. -/
def EitherV.containsDefault (v : Val F) (e : EitherV F) : Bool :=
  e.contains strictEqPrim v

/-- The inner recursion of the source's static `liftN`:
`recurse(either, shadowArgs)` returns `either` when `shadowArgs` is
empty and otherwise recurses on `either.ap(shadowArgs[0])` and
`shadowArgs.slice(1)`. -/
def liftNrec (app : F → Val F → Val F) (either : EitherV F) :
    List (EitherV F) → EitherV F
  | [] => either
  | x :: rest => liftNrec app (either.ap app x) rest

/-- Source `static liftN(fn, ...args)`: the initial accumulator is
`args[0].map(() => fn)` and the recursion is started on the FULL
argument list `args` (line 260: `return recurse(initialValue, args)`),
so `args[0]` is consumed again by the first `ap` step.  The non-empty
rest-parameter `...args` is modelled as a head `arg0` plus a tail. -/
def liftN (app : F → Val F → Val F) (fn : F) (arg0 : EitherV F)
    (rest : List (EitherV F)) : EitherV F :=
  liftNrec app (arg0.map (fun _ => Val.vfn fn)) (arg0 :: rest)

/-- Modelled from the spec (for the refinement comparison in claim C3):
the algorithm the spec describes for `liftN` — accumulator
`args[0].map(() => fn)`, then a left fold of `ap` over the REMAINING
arguments `args[1]` onward only. -/
def liftNSpecAlg (app : F → Val F → Val F) (fn : F) (arg0 : EitherV F)
    (rest : List (EitherV F)) : EitherV F :=
  rest.foldl (fun acc x => acc.ap app x) (arg0.map (fun _ => Val.vfn fn))

/-- A fully-curried-through check: applying `f` successively to the
values `vs` yields a function at every intermediate step.  This is the
formalisation of the spec's precondition that the function given to
`liftN` is completely curried (one argument consumed per application). -/
def curriedThrough (app : F → Val F → Val F) : F → List (Val F) → Bool
  | _, [] => true
  | f, v :: vs =>
    match app f v with
    | Val.vfn g => curriedThrough app g vs
    | _ => false

end Ether

namespace Ether

/-- A concrete function universe for worked examples: the curried adders
`a => b => a + b` and `a => b => c => a + b + c` of the spec, with their
partial applications. -/
inductive Fn where
  | add2 : Fn
  | add2p : Int → Fn
  | add3 : Fn
  | add3p : Int → Fn
  | add3pp : Int → Int → Fn
  | idf : Fn
deriving DecidableEq, Repr

/-- Application for `Fn`.  The catch-all branch is unreachable in every
example below (JavaScript would produce a coercion artefact there). -/
def Fn.app : Fn → Val Fn → Val Fn
  | Fn.add2, Val.vint a => Val.vfn (Fn.add2p a)
  | Fn.add2p a, Val.vint b => Val.vint (a + b)
  | Fn.add3, Val.vint a => Val.vfn (Fn.add3p a)
  | Fn.add3p a, Val.vint b => Val.vfn (Fn.add3pp a b)
  | Fn.add3pp a b, Val.vint c => Val.vint (a + b + c)
  | Fn.idf, v => v
  | _, _ => Val.vint 0

end Ether

namespace Ether

/-
Heap model.  JavaScript objects are references into a heap; the source
mutates `this.type` in `swap` and returns `this` from many methods, so
claims about receiver identity need instances with addresses.  A heap is
a list of objects, an address is an index, and each method becomes a
function from a heap and a receiver address to a heap and a result
address.  Constructing `new Either(...)` (through the `Left`/`Right`
factories) appends a fresh object.  Callbacks are modelled as pure:
a `flatMap`/`then` callback describes the object it returns, which is
allocated fresh, and never touches the existing heap.
-/

/-- Heap payload values: primitives, a function code, or a reference to
another Either instance on the heap (`href a` is what the source's
`instanceof Either` test recognises). -/
inductive HVal (F : Type) where
  | hint : Int → HVal F
  | hstr : String → HVal F
  | hfn : F → HVal F
  | href : Nat → HVal F
deriving DecidableEq, Repr

/-- A heap-resident Either instance: the two fields of the source class. -/
structure HObj (F : Type) where
  value : HVal F
  type : Tag
deriving DecidableEq, Repr

/-- A heap is a list of Either instances; the address of an instance is
its index. -/
abbrev Heap (F : Type) := List (HObj F)

variable {F : Type}

/-- Dereference an address (out-of-range reads give a dummy object;
no theorem below depends on that default). -/
def hget (h : Heap F) (a : Nat) : HObj F :=
  h.getD a ⟨HVal.hint 0, Tag.left⟩

/-- Allocate a fresh instance, as `new Either(value, type)` does. -/
def halloc (h : Heap F) (o : HObj F) : Heap F × Nat :=
  (h ++ [o], h.length)

/-- The receiver's `this.isLeft()` in the heap model. -/
def hIsLeft (h : Heap F) (a : Nat) : Bool :=
  (hget h a).type == Tag.left

/-- Heap model of `map`: `this.isLeft() ? this : Right(fn(this.get()))` —
on a Left the receiver itself is returned; on a Right a fresh instance
is allocated by the `Right` factory. -/
def mapH (fn : HVal F → HVal F) (h : Heap F) (a : Nat) : Heap F × Nat :=
  if hIsLeft h a then (h, a)
  else halloc h ⟨fn (hget h a).value, Tag.right⟩

/-- Heap model of `flatMap`: `this.isLeft() ? this : fn(this.get())` —
the callback's resulting instance is modelled as freshly constructed. -/
def flatMapH (fn : HVal F → HObj F) (h : Heap F) (a : Nat) : Heap F × Nat :=
  if hIsLeft h a then (h, a)
  else halloc h (fn (hget h a).value)

/-- Heap model of `then`: a Left receiver is returned as is; otherwise
the callback result is either an Either instance (`Sum.inr`, the
`instanceof Either` branch, returned as constructed) or a plain value
(`Sum.inl`, wrapped by the `Right` factory). -/
def thenH (fn : HVal F → Sum (HVal F) (HObj F)) (h : Heap F) (a : Nat) :
    Heap F × Nat :=
  if hIsLeft h a then (h, a)
  else
    match fn (hget h a).value with
    | Sum.inr o => halloc h o
    | Sum.inl b => halloc h ⟨b, Tag.right⟩

/-- Heap model of `orElse`: `this.isLeft() ? otherEither : this`. -/
def orElseH (h : Heap F) (a b : Nat) : Heap F × Nat :=
  if hIsLeft h a then (h, b) else (h, a)

/-- Heap model of `flatten`: a Left receiver is returned as is; a Right
whose payload is a reference to an Either returns that reference; any
other Right returns the receiver. -/
def flattenH (h : Heap F) (a : Nat) : Heap F × Nat :=
  if hIsLeft h a then (h, a)
  else
    match (hget h a).value with
    | HVal.href r => (h, r)
    | _ => (h, a)

/-- Heap model of `filterOrElse`: the receiver when Left or passing the
filter, the provided other instance otherwise. -/
def filterOrElseH (p : HVal F → Bool) (other : Nat) (h : Heap F) (a : Nat) :
    Heap F × Nat :=
  if hIsLeft h a then (h, a)
  else if p (hget h a).value then (h, a) else (h, other)

/-- Heap model of `logAndContinue`: logs (no heap effect) and
`return this`. -/
def logAndContinueH (h : Heap F) (a : Nat) : Heap F × Nat :=
  (h, a)

/-- Heap model of `ap`: a Left receiver is returned; a Right receiver
whose payload is not a function is returned (the `typeof` soft-fail);
otherwise `either.map(underlyingFunc)` runs on the argument. -/
def apH (app : F → HVal F → HVal F) (h : Heap F) (a b : Nat) : Heap F × Nat :=
  if hIsLeft h a then (h, a)
  else
    match (hget h a).value with
    | HVal.hfn f => mapH (app f) h b
    | _ => (h, a)

/-- Heap model of `swap`: compute the flipped tag from `isLeft`, assign
`this.type = newType` in place, and `return this` — the same address. -/
def swapH (h : Heap F) (a : Nat) : Heap F × Nat :=
  let newType := if hIsLeft h a then Tag.right else Tag.left
  (h.set a ⟨(hget h a).value, newType⟩, a)

end Ether

namespace Ether

/-
Invocation-counting copies of the value-model combinators, for the claim
that a chain starting from a Left never invokes a supplied function.
Each definition is the same source method, instrumented with a count of
how many times it calls a caller-supplied function (the callback for
`map`/`flatMap`/`then`, the wrapped payload function for `ap`).
-/

variable {F : Type}

/-- Counting `map`: the callback runs exactly on the non-Left branch. -/
def mapC (fn : Val F → Val F) (e : EitherV F) : EitherV F × Nat :=
  if e.isLeft then (e, 0) else (Right (fn e.get), 1)

/-- Counting `flatMap`. -/
def flatMapC (fn : Val F → EitherV F) (e : EitherV F) : EitherV F × Nat :=
  if e.isLeft then (e, 0) else (fn e.get, 1)

/-- Counting `then`. -/
def thenC (fn : Val F → Val F) (e : EitherV F) : EitherV F × Nat :=
  if e.isLeft then (e, 0)
  else
    match fn e.get with
    | Val.veither t v => (⟨v, t⟩, 1)
    | r => (Right r, 1)

/-- Counting `ap`: the wrapped payload function is applied only when the
receiver is a Right holding a function and the argument is a Right. -/
def apC (app : F → Val F → Val F) (e other : EitherV F) : EitherV F × Nat :=
  if e.isLeft then (e, 0)
  else
    match e.get with
    | Val.vfn f =>
      if other.isLeft then (other, 0) else (Right (app f other.get), 1)
    | _ => (e, 0)

/-- One link of a method chain: which method is called and with what
argument. -/
inductive Op (F : Type) where
  | opMap : (Val F → Val F) → Op F
  | opFlatMap : (Val F → EitherV F) → Op F
  | opThen : (Val F → Val F) → Op F
  | opAp : EitherV F → Op F

/-- Run one chained call on the current container, counting callback
invocations. -/
def stepC (app : F → Val F → Val F) : Op F → EitherV F → EitherV F × Nat
  | Op.opMap fn, e => mapC fn e
  | Op.opFlatMap fn, e => flatMapC fn e
  | Op.opThen fn, e => thenC fn e
  | Op.opAp other, e => apC app e other

/-- Run a whole chain of `map`/`flatMap`/`then`/`ap` calls, returning
the final container and the total number of supplied-function
invocations. -/
def runChainC (app : F → Val F → Val F) (e : EitherV F) :
    List (Op F) → EitherV F × Nat
  | [] => (e, 0)
  | op :: ops =>
    let r := stepC app op e
    let r2 := runChainC app r.1 ops
    (r2.1, r.2 + r2.2)

end Ether

namespace Ether

/-
Theorems.  Shared helper lemmas come first; each claim is settled by one
named theorem (with a witness or counterexample where required).
-/

variable {F : Type}

lemma ap_of_left (app : F → Val F → Val F) (e x : EitherV F)
    (h : e.type = Tag.left) : e.ap app x = e := by
  simp [EitherV.ap, EitherV.isLeft, h]

lemma liftNrec_of_left (app : F → Val F → Val F) (e : EitherV F)
    (h : e.type = Tag.left) : ∀ xs, liftNrec app e xs = e := by
  intro xs
  induction xs with
  | nil => rfl
  | cons x rest ih => rw [liftNrec, ap_of_left app e x h]; exact ih

lemma liftNrec_eq_foldl (app : F → Val F → Val F) (xs : List (EitherV F)) :
    ∀ e, liftNrec app e xs = xs.foldl (fun acc x => acc.ap app x) e := by
  induction xs with
  | nil => intro e; rfl
  | cons x rest ih => intro e; rw [liftNrec, List.foldl]; exact ih _

/-- Claim C1.  The spec (and the method's own documentation) says
`exists` is false for any Left; the source line
`return this.isLeft() || predicateFn(this.get())` instead returns `true`
for every Left.  Evaluated at the failing input `Left(5)` with a
constantly false predicate, the code yields `true`. -/
theorem existsTrueOnLeftBug :
    (Ether.Left (Val.vint 5) : EitherV Fn).exists (fun _ => false) = true := by
  decide

/-- Claim C3 counterexample.  The claim says `liftN` folds `ap` over the
arguments from `args[1]` onward; the source starts the recursion on the
full list (`recurse(initialValue, args)`), so on the curried two-place
adder with arguments `Right(1)` and `Right(2)` the code yields
`Right(3)` while the claimed algorithm yields a partially applied
function — the two disagree. -/
theorem liftNSpecAlgCounterexample :
    liftN Fn.app Fn.add2 (Ether.Right (Val.vint 1)) [Ether.Right (Val.vint 2)]
        = Ether.Right (Val.vint 3) ∧
    liftNSpecAlg Fn.app Fn.add2 (Ether.Right (Val.vint 1)) [Ether.Right (Val.vint 2)]
        = Ether.Right (Val.vfn (Fn.add2p 2)) ∧
    liftN Fn.app Fn.add2 (Ether.Right (Val.vint 1)) [Ether.Right (Val.vint 2)]
        ≠ liftNSpecAlg Fn.app Fn.add2 (Ether.Right (Val.vint 1)) [Ether.Right (Val.vint 2)] := by
  decide

/-- Claim C3 as amended.  `liftN(fn, ...args)` equals the fold that
starts from the accumulator `args[0].map(() => fn)` and applies `ap`
left-to-right over the ENTIRE argument list (`args[0]` onward), for
every function universe, application map, function and argument list. -/
theorem liftNFoldsEntireArgList (app : F → Val F → Val F) (fn : F)
    (arg0 : EitherV F) (rest : List (EitherV F)) :
    liftN app fn arg0 rest
      = (arg0 :: rest).foldl (fun acc x => acc.ap app x)
          (arg0.map (fun _ => Val.vfn fn)) := by
  unfold liftN
  exact liftNrec_eq_foldl app (arg0 :: rest) _

/-- Claim C4.  The four-case contract of `ap`: a Left receiver is
returned unchanged; a Right receiver with a non-function payload is
returned unchanged (soft failure); with a function payload, a Left
argument is returned, and a Right argument yields the application
result wrapped as a Right. -/
theorem apContract (app : F → Val F → Val F) (e other : EitherV F) :
    (e.type = Tag.left → e.ap app other = e) ∧
    (e.type = Tag.right → isFunction e.value = false → e.ap app other = e) ∧
    (∀ f, e.type = Tag.right → e.value = Val.vfn f → other.type = Tag.left →
        e.ap app other = other) ∧
    (∀ f, e.type = Tag.right → e.value = Val.vfn f → other.type = Tag.right →
        e.ap app other = Ether.Right (app f other.value)) := by
  refine ⟨fun h => ap_of_left app e other h, ?_, ?_, ?_⟩
  · intro h hf
    cases hv : e.value <;>
      simp_all [EitherV.ap, EitherV.isLeft, EitherV.get, isFunction]
  · intro f h hv hol
    simp [EitherV.ap, EitherV.isLeft, EitherV.get, h, hv, EitherV.map, hol]
  · intro f h hv hor
    simp [EitherV.ap, EitherV.isLeft, EitherV.get, h, hv, EitherV.map, hor]

/-- Claim C4 witness: the contract evaluated on concrete containers. -/
theorem apContractWitness :
    (Ether.Left (Val.vint 9) : EitherV Fn).ap Fn.app (Ether.Right (Val.vint 1))
        = Ether.Left (Val.vint 9) ∧
    (Ether.Right (Val.vint 7) : EitherV Fn).ap Fn.app (Ether.Left (Val.vint 2))
        = Ether.Right (Val.vint 7) ∧
    (Ether.Right (Val.vfn Fn.add2) : EitherV Fn).ap Fn.app (Ether.Left (Val.vstr "e"))
        = Ether.Left (Val.vstr "e") ∧
    (Ether.Right (Val.vfn Fn.add2) : EitherV Fn).ap Fn.app (Ether.Right (Val.vint 21))
        = Ether.Right (Val.vfn (Fn.add2p 21)) :=
  ⟨(apContract Fn.app (Ether.Left (Val.vint 9)) (Ether.Right (Val.vint 1))).1 rfl,
   (apContract Fn.app (Ether.Right (Val.vint 7)) (Ether.Left (Val.vint 2))).2.1 rfl rfl,
   (apContract Fn.app (Ether.Right (Val.vfn Fn.add2)) (Ether.Left (Val.vstr "e"))).2.2.1
     Fn.add2 rfl rfl rfl,
   (apContract Fn.app (Ether.Right (Val.vfn Fn.add2)) (Ether.Right (Val.vint 21))).2.2.2
     Fn.add2 rfl rfl rfl⟩

/-- Claim C6.  `then` merges `map` and `flatMap`: a Left is returned
unchanged; when the callback returns an Either (here: a function of the
form `x => veither ...`, i.e. the image of an `Either`-returning
callback `g`), `then` agrees with `flatMap g` with no double wrapping;
when the callback's result at the payload is not an Either, `then`
agrees with `map`. -/
theorem thenMergesMapAndFlatMap (e : EitherV F) :
    (e.type = Tag.left → ∀ fn, e.thenE fn = e) ∧
    (∀ g : Val F → EitherV F,
        e.thenE (fun x => Val.veither (g x).type (g x).value) = e.flatMap g) ∧
    (∀ fn, isEither (fn e.value) = false → e.thenE fn = e.map fn) := by
  refine ⟨?_, ?_, ?_⟩
  · intro h fn
    simp [EitherV.thenE, EitherV.isLeft, h]
  · intro g
    by_cases h : e.isLeft
    · simp [EitherV.thenE, EitherV.flatMap, h]
    · simp [EitherV.thenE, EitherV.flatMap, h]
  · intro fn hf
    by_cases h : e.isLeft
    · simp [EitherV.thenE, EitherV.map, h]
    · cases hv : fn e.value <;>
        simp_all [EitherV.thenE, EitherV.map, EitherV.get, isEither]

/-- Claim C6 witness: the three branches evaluated on concrete inputs. -/
theorem thenMergesMapAndFlatMapWitness :
    (Ether.Left (Val.vint 1) : EitherV Fn).thenE (fun v => v)
        = Ether.Left (Val.vint 1) ∧
    (Ether.Right (Val.vint 5) : EitherV Fn).thenE
        (fun x => Val.veither (Ether.Right x).type (Ether.Right x).value)
        = (Ether.Right (Val.vint 5) : EitherV Fn).flatMap (fun x => Ether.Right x) ∧
    (Ether.Right (Val.vint 5) : EitherV Fn).thenE (fun v => v)
        = (Ether.Right (Val.vint 5) : EitherV Fn).map (fun v => v) :=
  ⟨(thenMergesMapAndFlatMap (Ether.Left (Val.vint 1))).1 rfl (fun v => v),
   (thenMergesMapAndFlatMap (Ether.Right (Val.vint 5))).2.1 (fun x => Ether.Right x),
   (thenMergesMapAndFlatMap (Ether.Right (Val.vint 5))).2.2 (fun v => v) (by decide)⟩

/-- Claim C8.  `contains` is tag-blind: it returns the equality function
applied to the payload and the argument, with the same answer for a Left
and a Right holding the same payload, and `Left(5).contains(5)` is true
under the default strict equality. -/
theorem containsTagBlind :
    (∀ (G : Type) (eq : Val G → Val G → Bool) (e : EitherV G) (v : Val G),
        e.contains eq v = eq e.value v) ∧
    (∀ (G : Type) (eq : Val G → Val G → Bool) (val v : Val G) (t t' : Tag),
        EitherV.contains eq v ⟨val, t⟩ = EitherV.contains eq v ⟨val, t'⟩) ∧
    (Ether.Left (Val.vint 5) : EitherV Fn).containsDefault (Val.vint 5) = true := by
  exact ⟨fun G eq e v => rfl, fun G eq val v t t' => rfl, by decide⟩

end Ether

namespace Ether

variable {F : Type}

lemma liftNrec_curried_prefix (app : F → Val F → Val F) (L : EitherV F)
    (post : List (EitherV F)) (hL : L.type = Tag.left) :
    ∀ (pre : List (EitherV F)) (f : F),
      (∀ e ∈ pre, e.type = Tag.right) →
      curriedThrough app f (pre.map EitherV.value) = true →
      liftNrec app (Ether.Right (Val.vfn f)) (pre ++ L :: post) = L := by
  intro pre
  induction pre with
  | nil =>
    intro f _ _
    rw [List.nil_append, liftNrec]
    have h1 : (Ether.Right (Val.vfn f) : EitherV F).ap app L = L := by
      simp [EitherV.ap, EitherV.isLeft, Ether.Right, EitherV.get, EitherV.map, hL]
    rw [h1]
    exact liftNrec_of_left app L hL post
  | cons e pre' ih =>
    intro f hpre hcur
    rw [List.cons_append, liftNrec]
    have he : e.type = Tag.right := hpre e (by simp)
    cases hg : app f e.value with
    | vfn g =>
      have hstep : (Ether.Right (Val.vfn f) : EitherV F).ap app e
          = Ether.Right (Val.vfn g) := by
        simp [EitherV.ap, EitherV.isLeft, Ether.Right, EitherV.get, EitherV.map, he, hg]
      rw [hstep]
      refine ih g (fun x hx => hpre x (by simp [hx])) ?_
      simpa [curriedThrough, hg] using hcur
    | vint n => simp [curriedThrough, hg] at hcur
    | vstr s => simp [curriedThrough, hg] at hcur
    | veither t v => simp [curriedThrough, hg] at hcur

/-- Claim C5.  `liftN` short-circuits on the first Left: whenever the
argument list splits as `pre ++ L :: post` with every container in `pre`
a Right, `L` a Left, and the supplied function curried through the
payloads of `pre`, the result is exactly that first Left (hence a Left
carrying its payload). -/
theorem liftNShortCircuitsFirstLeft (app : F → Val F → Val F) (fn : F)
    (pre : List (EitherV F)) (L : EitherV F) (post : List (EitherV F))
    (arg0 : EitherV F) (rest : List (EitherV F))
    (hsplit : arg0 :: rest = pre ++ L :: post)
    (hpre : ∀ e ∈ pre, e.type = Tag.right)
    (hL : L.type = Tag.left)
    (hcur : curriedThrough app fn (pre.map EitherV.value) = true) :
    liftN app fn arg0 rest = L ∧ (liftN app fn arg0 rest).type = Tag.left := by
  have hmain : liftN app fn arg0 rest = L := by
    unfold liftN
    rw [hsplit]
    cases pre with
    | nil =>
      have ha : arg0 = L := by
        rw [List.nil_append] at hsplit
        exact (List.cons.injEq _ _ _ _ ▸ hsplit : _ ∧ _).1
      have hmap : arg0.map (fun _ => Val.vfn fn) = arg0 := by
        simp [EitherV.map, EitherV.isLeft, ha, hL]
      rw [hmap, ha, List.nil_append]
      exact liftNrec_of_left app L hL _
    | cons e0 pre' =>
      have ha : arg0 = e0 := by
        rw [List.cons_append] at hsplit
        exact (List.cons.injEq _ _ _ _ ▸ hsplit : _ ∧ _).1
      have he0 : e0.type = Tag.right := hpre e0 (by simp)
      have hmap : arg0.map (fun _ => Val.vfn fn) = Ether.Right (Val.vfn fn) := by
        simp [EitherV.map, EitherV.isLeft, ha, he0, Ether.Right]
      rw [hmap]
      exact liftNrec_curried_prefix app L post hL (e0 :: pre') fn hpre hcur
  exact ⟨hmain, by rw [hmain]; exact hL⟩

/-- Claim C5 witness: the spec's own example
`liftN(a => b => c => a + b + c, Right(1), Left("bad"), Right(3))`
evaluates to the Left with payload `"bad"`. -/
theorem liftNShortCircuitsFirstLeftWitness :
    liftN Fn.app Fn.add3 (Ether.Right (Val.vint 1))
        [Ether.Left (Val.vstr "bad"), Ether.Right (Val.vint 3)]
      = Ether.Left (Val.vstr "bad") :=
  (liftNShortCircuitsFirstLeft Fn.app Fn.add3
      [Ether.Right (Val.vint 1)] (Ether.Left (Val.vstr "bad")) [Ether.Right (Val.vint 3)]
      (Ether.Right (Val.vint 1)) [Ether.Left (Val.vstr "bad"), Ether.Right (Val.vint 3)]
      rfl
      (by intro e he; rw [List.mem_singleton] at he; subst he; rfl)
      rfl
      (by decide)).1

lemma stepC_of_left (app : F → Val F → Val F) (op : Op F) (e : EitherV F)
    (h : e.type = Tag.left) : stepC app op e = (e, 0) := by
  cases op <;> simp [stepC, mapC, flatMapC, thenC, apC, EitherV.isLeft, h]

/-- Claim C7.  Left short-circuit: a chain of `map`/`flatMap`/`then`/`ap`
calls starting from a Left returns the original container unchanged and
invokes zero supplied functions (the invocation counter stays 0). -/
theorem leftShortCircuitChain (app : F → Val F → Val F) (e : EitherV F)
    (h : e.type = Tag.left) (ops : List (Op F)) :
    runChainC app e ops = (e, 0) := by
  induction ops with
  | nil => rfl
  | cons op ops ih =>
    simp [runChainC, stepC_of_left app op e h, ih]

/-- Claim C7 witness: a concrete four-call chain on `Left("err")`. -/
theorem leftShortCircuitChainWitness :
    runChainC Fn.app (Ether.Left (Val.vstr "err"))
        [Op.opMap (fun v => v),
         Op.opFlatMap (fun v => Ether.Right v),
         Op.opThen (fun v => v),
         Op.opAp (Ether.Right (Val.vint 1))]
      = (Ether.Left (Val.vstr "err"), 0) :=
  leftShortCircuitChain Fn.app (Ether.Left (Val.vstr "err")) rfl _

end Ether

namespace Ether

variable {F : Type}

lemma hget_append_one (h : Heap F) (o : HObj F) (a : Nat) (ha : a < h.length) :
    hget (h ++ [o]) a = hget h a := by
  unfold hget
  exact List.getD_append h [o] _ a ha

lemma hget_set_self (h : Heap F) (a : Nat) (o : HObj F) (ha : a < h.length) :
    hget (h.set a o) a = o := by
  unfold hget
  rw [List.getD_eq_getElem _ _ (by simpa using ha)]
  simp

lemma hget_set_ne (h : Heap F) (a b : Nat) (o : HObj F) (hab : a ≠ b) :
    hget (h.set a o) b = hget h b := by
  simp [hget, List.getD, List.getElem?_set_ne hab]

lemma hget_set_oob (h : Heap F) (a b : Nat) (o : HObj F) (ha : ¬ a < h.length) :
    hget (h.set a o) b = hget h b := by
  rw [List.set_eq_of_length_le (Nat.le_of_not_lt ha)]

lemma mapH_fst (fn : HVal F → HVal F) (h : Heap F) (b a : Nat) (ha : a < h.length) :
    hget (mapH fn h b).1 a = hget h a := by
  unfold mapH
  split
  · rfl
  · exact hget_append_one h _ a ha

/-- Claim C2 counterexample.  The claim says every non-`swap` method
returns a container that is not the receiver itself; but
`logAndContinue` always returns `this`, and `map` on a Left returns
`this`: on a one-object heap holding `Left(5)` at address 0, both calls
return address 0 — the receiver — and allocate nothing. -/
theorem methodsReturnReceiverCounterexample :
    logAndContinueH ([⟨HVal.hint 5, Tag.left⟩] : Heap Fn) 0
        = ([⟨HVal.hint 5, Tag.left⟩], 0) ∧
    mapH (fun v => v) ([⟨HVal.hint 5, Tag.left⟩] : Heap Fn) 0
        = ([⟨HVal.hint 5, Tag.left⟩], 0) := by
  decide

/-- Claim C2 as amended.  Every method other than `swap` leaves the
receiver unchanged — the receiver's heap cell (tag and payload) is the
same before and after the call — though the returned container may be
the receiver itself. -/
theorem nonSwapMethodsPreserveReceiver (h : Heap F) (a : Nat) (ha : a < h.length) :
    (∀ fn, hget (mapH fn h a).1 a = hget h a) ∧
    (∀ fn, hget (flatMapH fn h a).1 a = hget h a) ∧
    (∀ fn, hget (thenH fn h a).1 a = hget h a) ∧
    (∀ b, hget (orElseH h a b).1 a = hget h a) ∧
    hget (flattenH h a).1 a = hget h a ∧
    (∀ p other, hget (filterOrElseH p other h a).1 a = hget h a) ∧
    hget (logAndContinueH h a).1 a = hget h a ∧
    (∀ app b, hget (apH app h a b).1 a = hget h a) := by
  refine ⟨?_, ?_, ?_, ?_, ?_, ?_, ?_, ?_⟩
  · intro fn
    exact mapH_fst fn h a a ha
  · intro fn
    unfold flatMapH
    split
    · rfl
    · exact hget_append_one h _ a ha
  · intro fn
    unfold thenH
    split
    · rfl
    · split
      · exact hget_append_one h _ a ha
      · exact hget_append_one h _ a ha
  · intro b
    unfold orElseH
    split <;> rfl
  · unfold flattenH
    split
    · rfl
    · split <;> rfl
  · intro p other
    unfold filterOrElseH
    split
    · rfl
    · split <;> rfl
  · rfl
  · intro app b
    unfold apH
    split
    · rfl
    · split
      · exact mapH_fst _ h b a ha
      · rfl

/-- Claim C2 witness: the map conjunct evaluated on a singleton heap. -/
theorem nonSwapMethodsPreserveReceiverWitness :
    0 < ([⟨HVal.hint 5, Tag.left⟩] : Heap Fn).length ∧
    hget (mapH (fun v => v) ([⟨HVal.hint 5, Tag.left⟩] : Heap Fn) 0).1 0
      = hget ([⟨HVal.hint 5, Tag.left⟩] : Heap Fn) 0 :=
  ⟨by decide,
   (nonSwapMethodsPreserveReceiver [⟨HVal.hint 5, Tag.left⟩] 0 (by decide)).1 (fun v => v)⟩

/-- Claim C9.  `swap` mutates in place: it returns the receiver's own
address, leaves the payload untouched, flips Left to Right and Right to
Left in the receiver's heap cell, and allocates nothing. -/
theorem swapMutatesInPlace (h : Heap F) (a : Nat) (ha : a < h.length) :
    (swapH h a).2 = a ∧
    (hget (swapH h a).1 a).value = (hget h a).value ∧
    ((hget h a).type = Tag.left → (hget (swapH h a).1 a).type = Tag.right) ∧
    ((hget h a).type = Tag.right → (hget (swapH h a).1 a).type = Tag.left) ∧
    (swapH h a).1.length = h.length := by
  have hs : hget (swapH h a).1 a
      = ⟨(hget h a).value, if hIsLeft h a then Tag.right else Tag.left⟩ := by
    unfold swapH
    exact hget_set_self h a _ ha
  refine ⟨rfl, ?_, ?_, ?_, ?_⟩
  · rw [hs]
  · intro ht
    rw [hs]
    simp [hIsLeft, ht]
  · intro ht
    rw [hs]
    simp [hIsLeft, ht]
  · unfold swapH
    simp

/-- Claim C9 witness: the spec's own example `e = Right(1)`; after
`e.swap()` the same address holds a Left. -/
theorem swapMutatesInPlaceWitness :
    0 < ([⟨HVal.hint 1, Tag.right⟩] : Heap Fn).length ∧
    (swapH ([⟨HVal.hint 1, Tag.right⟩] : Heap Fn) 0).2 = 0 ∧
    (hget (swapH ([⟨HVal.hint 1, Tag.right⟩] : Heap Fn) 0).1 0).type = Tag.left :=
  ⟨by decide,
   (swapMutatesInPlace ([⟨HVal.hint 1, Tag.right⟩] : Heap Fn) 0 (by decide)).1,
   (swapMutatesInPlace ([⟨HVal.hint 1, Tag.right⟩] : Heap Fn) 0 (by decide)).2.2.2.1 rfl⟩

lemma hobj_ext (o1 o2 : HObj F) (hv : o1.value = o2.value)
    (ht : o1.type = o2.type) : o1 = o2 := by
  cases o1
  cases o2
  cases hv
  cases ht
  rfl

lemma swapH_hget_ne (g : Heap F) (a b : Nat) (hab : a ≠ b) :
    hget (swapH g a).1 b = hget g b := by
  unfold swapH
  exact hget_set_ne g a b _ hab

lemma swapH_swapH_self (h : Heap F) (a : Nat) (ha : a < h.length) :
    hget (swapH (swapH h a).1 (swapH h a).2).1 a = hget h a := by
  have hs1 : hget (swapH h a).1 a
      = ⟨(hget h a).value, if hIsLeft h a then Tag.right else Tag.left⟩ := by
    unfold swapH
    exact hget_set_self h a _ ha
  have ha1 : a < ((swapH h a).1).length := by
    unfold swapH
    simpa using ha
  have hs2 : hget (swapH (swapH h a).1 (swapH h a).2).1 a
      = ⟨(hget (swapH h a).1 a).value,
         if hIsLeft (swapH h a).1 a then Tag.right else Tag.left⟩ := by
    unfold swapH
    exact hget_set_self _ a _ ha1
  apply hobj_ext
  · rw [hs2, hs1]
  · rw [hs2]
    unfold hIsLeft
    rw [hs1]
    cases ht : (hget h a).type <;> simp [hIsLeft, ht]

/-- Claim C10.  `swap` is an involution on the observable state: two
successive `swap` calls return the original address, restore every heap
cell (so `isLeft`/`isRight` answer as before), and the payload seen by
`get` is unchanged after the first `swap` already. -/
theorem swapInvolution (h : Heap F) (a : Nat) :
    (swapH (swapH h a).1 (swapH h a).2).2 = a ∧
    (∀ b, hget (swapH (swapH h a).1 (swapH h a).2).1 b = hget h b) ∧
    (hget (swapH h a).1 a).value = (hget h a).value := by
  have hsnd : (swapH h a).2 = a := rfl
  by_cases ha : a < h.length
  · refine ⟨rfl, ?_, ?_⟩
    · intro b
      by_cases hab : a = b
      · subst hab
        exact swapH_swapH_self h a ha
      · rw [hsnd, swapH_hget_ne ((swapH h a).1) a b hab, swapH_hget_ne h a b hab]
    · have hs1 : hget (swapH h a).1 a
          = ⟨(hget h a).value, if hIsLeft h a then Tag.right else Tag.left⟩ := by
        unfold swapH
        exact hget_set_self h a _ ha
      rw [hs1]
  · have h1 : (swapH h a).1 = h := by
      unfold swapH
      exact List.set_eq_of_length_le (Nat.le_of_not_lt ha)
    refine ⟨rfl, ?_, ?_⟩
    · intro b
      rw [hsnd, h1, h1]
    · rw [h1]

end Ether
